import Mathlib

/-!
# Verification of the pqfile key-pool / hybrid-encryption core

Shallow embedding of the pqfile repository's document codec, key pool and
rotation pass, as implemented in
`src/lambdas/unified_api/app.py`, `src/lambdas/store_lambda/app.py`,
`src/lambdas/retrieve_lambda/app.py` and `src/lambdas/rotate_keys/app.py`.

Modelling conventions:
* byte strings are `List Nat`;
* library primitives that the Python code calls as black boxes (ML-KEM-768,
  the AES block permutation, SHA-256, base64) are fields of `CryptoPrims`,
  carrying exactly the algebraic contracts of those primitives; the CBC mode
  and the PKCS7 padding layer of the symmetric sealer are embedded concretely;
* the PostgreSQL tables `encryption_keys` / `access_logs` and the S3 bucket
  are an explicit `St` record; SQL queries are translated row-by-row
  (`ORDER BY usage_count ASC LIMIT 1` becomes "first row attaining the minimal
  usage count", `WHERE id = :key_id` with `rows[0]` becomes `List.find?`);
* the operating-system environment is a partial map `String → Option String`;
* external randomness (`os.urandom(16)`, the KEM coins, `uuid.uuid4()`, the
  KMS control plane) is an explicit `EncRand` argument;
* fallible paths return `Except String`.
-/

/-- Black-box cryptographic primitives used by the lambdas, with the
contracts the Python code relies on: base64 decoding inverts encoding,
the AES block permutation is inverted by its decryption direction and is
length preserving, and ML-KEM decapsulation with the private key of a
generated pair recovers the encapsulated shared secret. -/
structure CryptoPrims where
  sha256 : List Nat → List Nat
  b64enc : List Nat → List Nat
  b64dec : List Nat → List Nat
  aesEncBlock : List Nat → List Nat → List Nat
  aesDecBlock : List Nat → List Nat → List Nat
  kemGen : Nat → List Nat × List Nat
  kemEncaps : List Nat → Nat → List Nat × List Nat
  kemDecaps : List Nat → List Nat → List Nat
  b64_dec_enc : ∀ x, b64dec (b64enc x) = x
  aes_dec_enc : ∀ k b, aesDecBlock k (aesEncBlock k b) = b
  aesEncBlock_len : ∀ k b, (aesEncBlock k b).length = b.length
  kem_decaps_encaps : ∀ s r,
    kemDecaps (kemGen s).2 (kemEncaps (kemGen s).1 r).1 = (kemEncaps (kemGen s).1 r).2

/-- Byte-wise xor of two byte strings (truncating to the shorter one),
as CBC chaining combines a plaintext block with the previous ciphertext
block. -/
def xorBytes (a b : List Nat) : List Nat :=
  List.zipWith (fun x y => x ^^^ y) a b

/-- Split a byte string into 16-byte cipher blocks; `fuel` bounds the
recursion by the input length. -/
def chunksAux : Nat → List Nat → List (List Nat)
  | 0, _ => []
  | _ + 1, [] => []
  | fuel + 1, a :: rest => ((a :: rest).take 16) :: chunksAux fuel ((a :: rest).drop 16)

/-- Split a byte string into 16-byte cipher blocks (the AES block size the
Python code uses throughout). -/
def chunks16 (l : List Nat) : List (List Nat) :=
  chunksAux l.length l

/-- PKCS7 padding at block size 16, as `padding.PKCS7(128).padder()`:
append `16 - len % 16` copies of that same value. -/
def pad16 (d : List Nat) : List Nat :=
  d ++ List.replicate (16 - d.length % 16) (16 - d.length % 16)

/-- PKCS7 unpadding at block size 16, as `padding.PKCS7(128).unpadder()`:
reject an empty or non-block-multiple input, a padding byte outside
`1..16`, or trailing bytes that disagree with the padding byte. -/
def unpad16 (x : List Nat) : Option (List Nat) :=
  match x.getLast? with
  | none => none
  | some p =>
    if 1 ≤ p ∧ p ≤ 16 ∧ 16 ∣ x.length ∧ p ≤ x.length ∧
        (x.drop (x.length - p)).all (fun b => b == p) then
      some (x.take (x.length - p))
    else
      none

/-- CBC encryption over the abstract AES block permutation:
each block is xored with the previous ciphertext block (initially the IV)
and then passed through the block cipher. -/
def cbcEncAux (P : CryptoPrims) (k : List Nat) : List Nat → List (List Nat) → List (List Nat)
  | _, [] => []
  | prev, b :: bs =>
    P.aesEncBlock k (xorBytes b prev) :: cbcEncAux P k (P.aesEncBlock k (xorBytes b prev)) bs

/-- CBC decryption over the abstract AES block permutation. -/
def cbcDecAux (P : CryptoPrims) (k : List Nat) : List Nat → List (List Nat) → List (List Nat)
  | _, [] => []
  | prev, c :: cs => xorBytes (P.aesDecBlock k c) prev :: cbcDecAux P k c cs

/-- AES-256-CBC encryption of a whole (already padded) byte string, as
`Cipher(algorithms.AES(aes_key), modes.CBC(iv))` followed by
`encryptor.update(padded_data) + encryptor.finalize()`. -/
def aesCbcEncrypt (P : CryptoPrims) (key iv data : List Nat) : List Nat :=
  (cbcEncAux P key iv (chunks16 data)).flatten

/-- AES-256-CBC decryption of a whole byte string. -/
def aesCbcDecrypt (P : CryptoPrims) (key iv data : List Nat) : List Nat :=
  (cbcDecAux P key iv (chunks16 data)).flatten

theorem xorBytes_length (a b : List Nat) : (xorBytes a b).length = min a.length b.length :=
  List.length_zipWith _ a b

theorem xorBytes_xorBytes (a b : List Nat) (h : a.length ≤ b.length) :
    xorBytes (xorBytes a b) b = a := by
  induction a generalizing b with
  | nil => simp [xorBytes]
  | cons x xs ih =>
    cases b with
    | nil => simp at h
    | cons y ys =>
      have h' : xs.length ≤ ys.length := by simpa using h
      show ((x ^^^ y) ^^^ y) :: xorBytes (xorBytes xs ys) ys = x :: xs
      rw [Nat.xor_cancel_right y x, ih ys h']

theorem chunksAux_flatten (fuel : Nat) (l : List Nat) (h : l.length ≤ fuel) :
    (chunksAux fuel l).flatten = l := by
  induction fuel generalizing l with
  | zero =>
    have : l = [] := List.eq_nil_of_length_eq_zero (Nat.le_zero.mp h)
    simp [this, chunksAux]
  | succ n ih =>
    cases l with
    | nil => simp [chunksAux]
    | cons a rest =>
      simp only [chunksAux, List.flatten_cons]
      rw [ih ((a :: rest).drop 16)
        (by simp only [List.length_drop, List.length_cons] at h ⊢; omega)]
      exact List.take_append_drop 16 (a :: rest)

theorem chunks16_flatten (l : List Nat) : (chunks16 l).flatten = l :=
  chunksAux_flatten l.length l (Nat.le_refl _)

theorem chunksAux_mem_length (fuel : Nat) (l : List Nat) (hf : l.length ≤ fuel)
    (hd : 16 ∣ l.length) : ∀ c ∈ chunksAux fuel l, c.length = 16 := by
  induction fuel generalizing l with
  | zero =>
    have : l = [] := List.eq_nil_of_length_eq_zero (Nat.le_zero.mp hf)
    simp [this, chunksAux]
  | succ n ih =>
    cases l with
    | nil => simp [chunksAux]
    | cons a rest =>
      intro c hc
      rcases hd with ⟨k, hk⟩
      simp only [List.length_cons] at hk hf
      have hlen : 16 ≤ rest.length + 1 := by omega
      simp only [chunksAux, List.mem_cons] at hc
      rcases hc with rfl | hc
      · simp only [List.length_take, List.length_cons]
        omega
      · refine ih _ (by simp only [List.length_drop, List.length_cons]; omega) ?_ c hc
        refine ⟨k - 1, ?_⟩
        simp only [List.length_drop, List.length_cons]
        omega

theorem chunks16_mem_length (l : List Nat) (hd : 16 ∣ l.length) :
    ∀ c ∈ chunks16 l, c.length = 16 :=
  chunksAux_mem_length l.length l (Nat.le_refl _) hd

theorem chunksAux_of_blocks (bs : List (List Nat)) (fuel : Nat)
    (hb : ∀ c ∈ bs, c.length = 16) (hf : bs.flatten.length ≤ fuel) :
    chunksAux fuel bs.flatten = bs := by
  induction bs generalizing fuel with
  | nil =>
    cases fuel <;> simp [chunksAux]
  | cons c rest ih =>
    have hc : c.length = 16 := hb c (by simp)
    have hflat : (c :: rest).flatten = c ++ rest.flatten := List.flatten_cons ..
    cases fuel with
    | zero =>
      exfalso
      rw [hflat] at hf
      simp [List.length_append, hc] at hf
    | succ n =>
      rw [hflat]
      cases hcc : c ++ rest.flatten with
      | nil =>
        exfalso
        have := congrArg List.length hcc
        simp [hc] at this
      | cons a tail =>
        simp only [chunksAux, ← hcc]
        have ht : List.take 16 (c ++ rest.flatten) = c := by
          rw [← hc]; exact List.take_left c rest.flatten
        have hd2 : List.drop 16 (c ++ rest.flatten) = rest.flatten := by
          rw [← hc]; exact List.drop_left c rest.flatten
        rw [ht, hd2, ih n (fun d hd => hb d (List.mem_cons_of_mem _ hd))
          (by rw [hflat] at hf; simp only [List.length_append, hc] at hf; omega)]

theorem chunks16_of_blocks (bs : List (List Nat)) (hb : ∀ c ∈ bs, c.length = 16) :
    chunks16 bs.flatten = bs :=
  chunksAux_of_blocks bs bs.flatten.length hb (Nat.le_refl _)

theorem cbcEncAux_mem_length (P : CryptoPrims) (k : List Nat) (bs : List (List Nat))
    (prev : List Nat) (hb : ∀ b ∈ bs, b.length = 16) (hp : prev.length = 16) :
    ∀ c ∈ cbcEncAux P k prev bs, c.length = 16 := by
  induction bs generalizing prev with
  | nil => simp [cbcEncAux]
  | cons b rest ih =>
    intro c hc
    have hb0 : b.length = 16 := hb b (by simp)
    have hcl : (P.aesEncBlock k (xorBytes b prev)).length = 16 := by
      rw [P.aesEncBlock_len, xorBytes_length, hb0, hp]; simp
    simp only [cbcEncAux, List.mem_cons] at hc
    rcases hc with rfl | hc
    · exact hcl
    · exact ih _ (fun d hd => hb d (List.mem_cons_of_mem _ hd)) hcl c hc

theorem cbc_dec_enc (P : CryptoPrims) (k : List Nat) (bs : List (List Nat))
    (prev : List Nat) (hb : ∀ b ∈ bs, b.length = 16) (hp : prev.length = 16) :
    cbcDecAux P k prev (cbcEncAux P k prev bs) = bs := by
  induction bs generalizing prev with
  | nil => simp [cbcEncAux, cbcDecAux]
  | cons b rest ih =>
    have hb0 : b.length = 16 := hb b (by simp)
    have hcl : (P.aesEncBlock k (xorBytes b prev)).length = 16 := by
      rw [P.aesEncBlock_len, xorBytes_length, hb0, hp]; simp
    simp only [cbcEncAux, cbcDecAux, P.aes_dec_enc]
    rw [xorBytes_xorBytes b prev (by simp [hb0, hp]),
      ih _ (fun d hd => hb d (List.mem_cons_of_mem _ hd)) hcl]

theorem pad16_length_dvd (d : List Nat) : 16 ∣ (pad16 d).length := by
  have h := Nat.div_add_mod d.length 16
  have hlt : d.length % 16 < 16 := Nat.mod_lt _ (by omega)
  refine ⟨d.length / 16 + 1, ?_⟩
  simp [pad16]
  omega

theorem replicate_eq_concat (n a : Nat) (h : 1 ≤ n) :
    List.replicate n a = List.replicate (n - 1) a ++ [a] := by
  conv_lhs => rw [show n = n - 1 + 1 from by omega]
  exact List.replicate_succ' (n - 1) a

theorem unpad16_pad16 (d : List Nat) : unpad16 (pad16 d) = some d := by
  have hlt : d.length % 16 < 16 := Nat.mod_lt _ (by omega)
  set p := 16 - d.length % 16 with hp
  have hp1 : 1 ≤ p := by omega
  have hp16 : p ≤ 16 := by omega
  have hlast : (pad16 d).getLast? = some p := by
    rw [pad16, ← hp, replicate_eq_concat p p hp1, ← List.append_assoc]
    exact List.getLast?_concat _
  have hlen : (pad16 d).length = d.length + p := by simp [pad16]
  have hdrop : (pad16 d).drop d.length = List.replicate p p := by
    have h0 := List.drop_left d (List.replicate p p)
    rw [pad16, ← hp]
    exact h0
  have htake : (pad16 d).take d.length = d := by
    have h0 := List.take_left d (List.replicate p p)
    rw [pad16, ← hp]
    exact h0
  have hstep : unpad16 (pad16 d) =
      if 1 ≤ p ∧ p ≤ 16 ∧ 16 ∣ (pad16 d).length ∧ p ≤ (pad16 d).length ∧
          (((pad16 d).drop ((pad16 d).length - p)).all fun b => b == p) then
        some ((pad16 d).take ((pad16 d).length - p))
      else none := by
    rw [unpad16, hlast]
  rw [hstep, if_pos]
  · rw [hlen, Nat.add_sub_cancel, htake]
  · refine ⟨hp1, hp16, pad16_length_dvd d, by rw [hlen]; omega, ?_⟩
    rw [hlen, Nat.add_sub_cancel, hdrop]
    simp [List.all_eq_true]

theorem aesCbc_dec_enc (P : CryptoPrims) (key iv d : List Nat)
    (hiv : iv.length = 16) (hd : 16 ∣ d.length) :
    aesCbcDecrypt P key iv (aesCbcEncrypt P key iv d) = d := by
  have hblocks : ∀ c ∈ chunks16 d, c.length = 16 := chunks16_mem_length d hd
  have henc : ∀ c ∈ cbcEncAux P key iv (chunks16 d), c.length = 16 :=
    cbcEncAux_mem_length P key (chunks16 d) iv hblocks hiv
  rw [aesCbcEncrypt, aesCbcDecrypt, chunks16_of_blocks _ henc,
    cbc_dec_enc P key _ iv hblocks hiv, chunks16_flatten]

/-! ## Data model: the `encryption_keys` / `access_logs` tables and the S3 bucket -/

/-- One row of the `encryption_keys` table
(`id, public_key, private_key, kms_key_id, kms_key_arn, status, usage_count,
created_at`); key material is stored base64-encoded, timestamps are seconds. -/
structure KeyRecord where
  id : Nat
  public_key : List Nat
  private_key : List Nat
  kms_key_id : Option String
  kms_key_arn : Option String
  status : String
  usage_count : Nat
  created_at : Int
deriving DecidableEq, Repr

/-- One row of the `access_logs` table. -/
structure LogEntry where
  document_id : String
  access_type : String
  key_id : Option Nat
deriving DecidableEq, Repr

/-- The JSON encrypted package persisted to S3: binary fields hold their
base64-encoded form, exactly as `encrypt_document` assembles them. -/
structure Package where
  key_id : Nat
  ciphertext : List Nat
  iv : List Nat
  encrypted_data : List Nat
  meta_algorithm : String
  meta_created_at : Int
  meta_kms_key_id : Option String
  meta_document_id : Option String
deriving DecidableEq, Repr

/-- The shared mutable world: both database tables, the S3 bucket
(an association list keyed by object key, newest first), the serial-id
counter of `encryption_keys`, and a counter feeding fresh KEM key
generations. -/
structure St where
  keys : List KeyRecord
  nextId : Nat
  s3 : List (String × Package)
  logs : List LogEntry
  seed : Nat
deriving DecidableEq, Repr

/-- External randomness and control-plane responses consumed by one
encryption: the KEM coins, the 16 bytes of `os.urandom(16)`, the
generated `uuid.uuid4()`, and the ids returned by `kms.create_key`. -/
structure EncRand where
  kemR : Nat
  ivB : List Nat
  iv_len : ivB.length = 16
  uuid : String
  kmsKeyId : String
  kmsKeyArn : String

/-- Decimal parser (the `int(...)` applied to environment values),
structurally recursive so that concrete environments evaluate. -/
def parseNatAux : List Char → Nat → Option Nat
  | [], acc => some acc
  | c :: cs, acc =>
    if c.isDigit then parseNatAux cs (acc * 10 + (c.toNat - 48)) else none

/-- Decimal parser on strings; `none` on empty or non-numeric input. -/
def parseNat (s : String) : Option Nat :=
  match s.data with
  | [] => none
  | l => parseNatAux l 0

/-- The OS environment, a partial map consulted by `os.environ.get` /
`os.getenv`; numeric variables are assumed well formed (`int(...)` in the
source would crash otherwise). -/
def envNat (env : String → Option String) (name : String) (d : Nat) : Nat :=
  match env name with
  | some s => (parseNat s).getD d
  | none => d

/-- `(key, p) :: bucket` models `s3_client.put_object` (later puts shadow
earlier ones on lookup). -/
def s3Put (s3 : List (String × Package)) (key : String) (p : Package) :
    List (String × Package) :=
  (key, p) :: s3

/-- `s3_client.get_object` by object key. -/
def s3Get (s3 : List (String × Package)) (key : String) : Option Package :=
  (s3.find? (fun e => e.1 == key)).map (·.2)

/-- `SELECT ... FROM encryption_keys WHERE id = :key_id` followed by
`rows[0]`: the first row with the given id. -/
def findKeyById (keys : List KeyRecord) (kid : Nat) : Option KeyRecord :=
  keys.find? (fun k => k.id == kid)

/-- `UPDATE encryption_keys SET usage_count = usage_count + 1
WHERE id = :key_id`. -/
def incrUsage (keys : List KeyRecord) (kid : Nat) : List KeyRecord :=
  keys.map fun k => if k.id = kid then { k with usage_count := k.usage_count + 1 } else k

/-- Keep the candidate with the strictly smaller usage count (the earlier
row wins ties). -/
def pickMin (b j : KeyRecord) : KeyRecord :=
  if j.usage_count < b.usage_count then j else b

/-- The row `ORDER BY usage_count ASC LIMIT 1` returns: the first row (in
table order) attaining the minimal usage count.  The SQL has no secondary
sort key, so ties are broken by row order, not by `created_at`. -/
def minByUsage : List KeyRecord → Option KeyRecord
  | [] => none
  | k :: ks => some (ks.foldl pickMin k)

/-- `SELECT ... WHERE status = 'active' ORDER BY usage_count ASC LIMIT 1`. -/
def selectActive (keys : List KeyRecord) : Option KeyRecord :=
  minByUsage (keys.filter (fun k => k.status == "active"))

namespace UnifiedApi

/-- `create_new_key` of `src/lambdas/unified_api/app.py` (lines 82-117):
generate an ML-KEM-768 pair, base64-encode it, create a KMS backup key,
and insert the row.  The INSERT omits `status`, `usage_count` and
`created_at`; the schema file is not part of the sources, so those
defaults are modelled from the spec (§4.1 `createKey` "inserts with
`status=active, usageCount=0`", `createdAt` assigned at insert time). -/
def create_new_key (P : CryptoPrims) (st : St) (r : EncRand) (now : Int) :
    KeyRecord × St :=
  let pp := P.kemGen st.seed
  let k : KeyRecord :=
    { id := st.nextId, public_key := P.b64enc pp.1, private_key := P.b64enc pp.2,
      kms_key_id := some r.kmsKeyId, kms_key_arn := some r.kmsKeyArn,
      status := "active", usage_count := 0, created_at := now }
  (k, { st with keys := st.keys ++ [k], nextId := st.nextId + 1, seed := st.seed + 1 })

/-- `get_or_create_active_key` (unified_api lines 52-80); `get_active_key`
of `src/lambdas/store_lambda/app.py` (lines 55-83) runs the same query and
update.  Returns the selected row as read (before its increment). -/
def get_or_create_active_key (P : CryptoPrims) (st : St) (r : EncRand) (now : Int) :
    KeyRecord × St :=
  match selectActive st.keys with
  | some k => (k, { st with keys := incrUsage st.keys k.id })
  | none => create_new_key P st r now

/-- `log_operation` (unified_api lines 255-274): best-effort INSERT into
`access_logs`; any database failure is caught and only logged. -/
def log_operation (st : St) (logFail : Bool) (op docId : String) (kid : Option Nat) : St :=
  if logFail then st else { st with logs := st.logs ++ [⟨docId, op, kid⟩] }

/-- Result dictionary of unified_api's `encrypt_document`. -/
structure EncResult where
  document_id : String
  s3_location : String
  key_id : Nat
  encrypted_package : Package
deriving DecidableEq, Repr

/-- The `if not document_id: document_id = str(uuid.uuid4())` fallback
(empty strings are falsy in Python). -/
def docIdOf (document_id : Option String) (r : EncRand) : String :=
  match document_id with
  | some s => if s = "" then r.uuid else s
  | none => r.uuid

/-- The encrypted package `encrypt_document` assembles for a given key:
ML-KEM-768 encapsulation against the key's public key, AES key =
SHA-256(shared secret), PKCS7-pad and AES-256-CBC-encrypt under the fresh
16-byte IV, every binary field base64-encoded.  Note
`metadata.document_id` is the caller's value, recorded before the uuid
fallback. -/
def mkPackage (P : CryptoPrims) (key : KeyRecord) (document_id : Option String)
    (r : EncRand) (now : Int) (document_data : List Nat) : Package :=
  let ce := P.kemEncaps (P.b64dec key.public_key) r.kemR
  let aes_key := P.sha256 ce.2
  { key_id := key.id, ciphertext := P.b64enc ce.1, iv := P.b64enc r.ivB,
    encrypted_data := P.b64enc (aesCbcEncrypt P aes_key r.ivB (pad16 document_data)),
    meta_algorithm := "ML-KEM-768-AES256-CBC", meta_created_at := now,
    meta_kms_key_id := key.kms_key_id, meta_document_id := document_id }

/-- `encrypt_document` (unified_api lines 119-192): select/create a key,
seal the document into a package (`mkPackage`), put it to S3 at
`encrypted/<document_id>.json`, best-effort audit log. -/
def encrypt_document (P : CryptoPrims) (st : St) (document_data : List Nat)
    (document_id : Option String) (r : EncRand) (now : Int) (logFail : Bool) :
    EncResult × St :=
  let sel := get_or_create_active_key P st r now
  let pkg := mkPackage P sel.1 document_id r now document_data
  let docId := docIdOf document_id r
  let s3key := "encrypted/" ++ docId ++ ".json"
  let st2 := { sel.2 with s3 := s3Put sel.2.s3 s3key pkg }
  let st3 := log_operation st2 logFail "encrypt" docId (some sel.1.id)
  ({ document_id := docId, s3_location := "s3://pqfile-documents/" ++ s3key,
     key_id := sel.1.id, encrypted_package := pkg }, st3)

/-- `decrypt_document` (unified_api lines 194-253): fetch the package from
S3, look the key row up by the package's `key_id` (its `status` column is
read but never checked), ML-KEM decapsulation with the private key,
AES key = SHA-256(shared secret), CBC-decrypt and PKCS7-unpad, best-effort
audit log. -/
def decrypt_document (P : CryptoPrims) (st : St) (document_id : String)
    (logFail : Bool) : Except String (List Nat) × St :=
  match s3Get st.s3 ("encrypted/" ++ document_id ++ ".json") with
  | none => (.error ("Document not found: " ++ document_id), st)
  | some pkg =>
    match findKeyById st.keys pkg.key_id with
    | none => (.error "Encryption key not found", st)
    | some key =>
      let private_key := P.b64dec key.private_key
      let ciphertext := P.b64dec pkg.ciphertext
      let iv := P.b64dec pkg.iv
      let encrypted_data := P.b64dec pkg.encrypted_data
      let shared_secret := P.kemDecaps private_key ciphertext
      let aes_key := P.sha256 shared_secret
      let padded := aesCbcDecrypt P aes_key iv encrypted_data
      match unpad16 padded with
      | none => (.error "Invalid padding", st)
      | some data =>
        (.ok data, log_operation st logFail "decrypt" document_id (some key.id))

end UnifiedApi

/-! ## Key-store lemmas -/

theorem foldl_pickMin_mem (l : List KeyRecord) (b : KeyRecord) :
    l.foldl pickMin b = b ∨ l.foldl pickMin b ∈ l := by
  induction l generalizing b with
  | nil => left; rfl
  | cons x xs ih =>
    rw [List.foldl_cons]
    rcases ih (pickMin b x) with h | h
    · rw [h, pickMin]
      by_cases hx : x.usage_count < b.usage_count
      · right; rw [if_pos hx]; exact List.mem_cons_self x xs
      · left; rw [if_neg hx]
    · right; exact List.mem_cons_of_mem _ h

theorem foldl_pickMin_le_init (l : List KeyRecord) (b : KeyRecord) :
    (l.foldl pickMin b).usage_count ≤ b.usage_count := by
  induction l generalizing b with
  | nil => simp
  | cons x xs ih =>
    rw [List.foldl_cons]
    refine le_trans (ih _) ?_
    rw [pickMin]
    by_cases hx : x.usage_count < b.usage_count
    · rw [if_pos hx]; omega
    · rw [if_neg hx]

theorem foldl_pickMin_le (l : List KeyRecord) (b j : KeyRecord) (hj : j ∈ l) :
    (l.foldl pickMin b).usage_count ≤ j.usage_count := by
  induction l generalizing b with
  | nil => simp at hj
  | cons x xs ih =>
    rw [List.foldl_cons]
    rcases List.mem_cons.mp hj with rfl | hj
    · refine le_trans (foldl_pickMin_le_init xs _) ?_
      rw [pickMin]
      by_cases hx : j.usage_count < b.usage_count
      · rw [if_pos hx]
      · rw [if_neg hx]; omega
    · exact ih _ hj

theorem minByUsage_spec (l : List KeyRecord) (k : KeyRecord) (h : minByUsage l = some k) :
    k ∈ l ∧ ∀ j ∈ l, k.usage_count ≤ j.usage_count := by
  cases l with
  | nil => simp [minByUsage] at h
  | cons x xs =>
    simp only [minByUsage, Option.some.injEq] at h
    subst h
    constructor
    · rcases foldl_pickMin_mem xs x with h | h
      · rw [h]; exact List.mem_cons_self x xs
      · exact List.mem_cons_of_mem _ h
    · intro j hj
      rcases List.mem_cons.mp hj with rfl | hj
      · exact foldl_pickMin_le_init xs j
      · exact foldl_pickMin_le xs x j hj

theorem selectActive_spec (keys : List KeyRecord) (k : KeyRecord)
    (h : selectActive keys = some k) :
    k ∈ keys ∧ k.status = "active" ∧
      ∀ j ∈ keys, j.status = "active" → k.usage_count ≤ j.usage_count := by
  obtain ⟨hm, hmin⟩ := minByUsage_spec _ _ h
  have hmem := List.mem_filter.mp hm
  refine ⟨hmem.1, by simpa using hmem.2, ?_⟩
  intro j hj hact
  exact hmin j (List.mem_filter.mpr ⟨hj, by simp [hact]⟩)

theorem selectActive_isSome (keys : List KeyRecord) (k : KeyRecord)
    (hk : k ∈ keys) (ha : k.status = "active") : ∃ j, selectActive keys = some j := by
  have hmem : k ∈ keys.filter (fun j => j.status == "active") :=
    List.mem_filter.mpr ⟨hk, by simp [ha]⟩
  cases hf : keys.filter (fun j => j.status == "active") with
  | nil => rw [hf] at hmem; simp at hmem
  | cons a as => exact ⟨_, by rw [selectActive, hf]; rfl⟩

theorem findKeyById_incrUsage (keys : List KeyRecord) (k : KeyRecord)
    (hnd : (keys.map (·.id)).Nodup) (hk : k ∈ keys) :
    findKeyById (incrUsage keys k.id) k.id =
      some { k with usage_count := k.usage_count + 1 } := by
  induction keys with
  | nil => simp at hk
  | cons x xs ih =>
    simp only [List.map_cons, List.nodup_cons] at hnd
    rcases List.mem_cons.mp hk with rfl | hk
    · simp only [incrUsage, List.map_cons, if_pos rfl, findKeyById]
      exact List.find?_cons_of_pos _ (by simp)
    · have hne : x.id ≠ k.id := fun he => hnd.1 (he ▸ List.mem_map_of_mem (·.id) hk)
      simp only [incrUsage, List.map_cons, if_neg hne, findKeyById]
      rw [List.find?_cons_of_neg _ (by simp [hne])]
      exact ih hnd.2 hk

theorem findKeyById_append_fresh (keys : List KeyRecord) (k : KeyRecord)
    (hfresh : ∀ j ∈ keys, j.id ≠ k.id) :
    findKeyById (keys ++ [k]) k.id = some k := by
  induction keys with
  | nil => simp [findKeyById, List.find?]
  | cons x xs ih =>
    have hne : x.id ≠ k.id := hfresh x (by simp)
    simp only [List.cons_append, findKeyById]
    rw [List.find?_cons_of_neg _ (by simp [hne])]
    exact ih (fun j hj => hfresh j (List.mem_cons_of_mem _ hj))

theorem s3Get_put (s3 : List (String × Package)) (key : String) (p : Package) :
    s3Get (s3Put s3 key p) key = some p := by
  simp [s3Get, s3Put]

/-- A pool row holds a base64-encoded ML-KEM-768 key pair produced by some
key generation. -/
def KeyWF (P : CryptoPrims) (k : KeyRecord) : Prop :=
  ∃ s, k.public_key = P.b64enc (P.kemGen s).1 ∧ k.private_key = P.b64enc (P.kemGen s).2

namespace UnifiedApi

theorem log_operation_s3 (st : St) (lf : Bool) (op d : String) (kid : Option Nat) :
    (log_operation st lf op d kid).s3 = st.s3 := by
  rw [log_operation]; split <;> rfl

theorem log_operation_keys (st : St) (lf : Bool) (op d : String) (kid : Option Nat) :
    (log_operation st lf op d kid).keys = st.keys := by
  rw [log_operation]; split <;> rfl

theorem encrypt_document_fst_docId (P : CryptoPrims) (st : St) (d : List Nat)
    (did : Option String) (r : EncRand) (now : Int) (lf : Bool) :
    (encrypt_document P st d did r now lf).1.document_id = docIdOf did r := rfl

theorem encrypt_document_snd_s3 (P : CryptoPrims) (st : St) (d : List Nat)
    (did : Option String) (r : EncRand) (now : Int) (lf : Bool) :
    (encrypt_document P st d did r now lf).2.s3 =
      s3Put (get_or_create_active_key P st r now).2.s3
        ("encrypted/" ++ docIdOf did r ++ ".json")
        (mkPackage P (get_or_create_active_key P st r now).1 did r now d) := by
  simp only [encrypt_document]
  rw [log_operation_s3]

theorem encrypt_document_snd_keys (P : CryptoPrims) (st : St) (d : List Nat)
    (did : Option String) (r : EncRand) (now : Int) (lf : Bool) :
    (encrypt_document P st d did r now lf).2.keys =
      (get_or_create_active_key P st r now).2.keys := by
  simp only [encrypt_document]
  rw [log_operation_keys]

theorem decrypt_document_of (P : CryptoPrims) (st : St) (docId : String) (lf : Bool)
    (pkg : Package) (key : KeyRecord) (data : List Nat)
    (h1 : s3Get st.s3 ("encrypted/" ++ docId ++ ".json") = some pkg)
    (h2 : findKeyById st.keys pkg.key_id = some key)
    (h3 : unpad16 (aesCbcDecrypt P
        (P.sha256 (P.kemDecaps (P.b64dec key.private_key) (P.b64dec pkg.ciphertext)))
        (P.b64dec pkg.iv) (P.b64dec pkg.encrypted_data)) = some data) :
    (decrypt_document P st docId lf).1 = Except.ok data := by
  simp only [decrypt_document, h1, h2, h3]

theorem get_or_create_spec (P : CryptoPrims) (st : St) (r : EncRand) (now : Int)
    (hwf : ∀ k ∈ st.keys, KeyWF P k)
    (hnd : (st.keys.map (·.id)).Nodup)
    (hbound : ∀ k ∈ st.keys, k.id < st.nextId) :
    ∃ s k',
      (get_or_create_active_key P st r now).1.public_key = P.b64enc (P.kemGen s).1 ∧
      findKeyById (get_or_create_active_key P st r now).2.keys
        (get_or_create_active_key P st r now).1.id = some k' ∧
      k'.private_key = P.b64enc (P.kemGen s).2 ∧
      (get_or_create_active_key P st r now).2.s3 = st.s3 := by
  cases hsel : selectActive st.keys with
  | some k =>
    obtain ⟨hk, _, _⟩ := selectActive_spec st.keys k hsel
    obtain ⟨s, hpub, hpriv⟩ := hwf k hk
    refine ⟨s, { k with usage_count := k.usage_count + 1 }, ?_, ?_, ?_, ?_⟩
    · simp only [get_or_create_active_key, hsel]
      exact hpub
    · simp only [get_or_create_active_key, hsel]
      exact findKeyById_incrUsage st.keys k hnd hk
    · exact hpriv
    · simp only [get_or_create_active_key, hsel]
  | none =>
    refine ⟨st.seed,
      { id := st.nextId, public_key := P.b64enc (P.kemGen st.seed).1,
        private_key := P.b64enc (P.kemGen st.seed).2,
        kms_key_id := some r.kmsKeyId, kms_key_arn := some r.kmsKeyArn,
        status := "active", usage_count := 0, created_at := now }, ?_, ?_, ?_, ?_⟩
    · simp only [get_or_create_active_key, hsel, create_new_key]
    · simp only [get_or_create_active_key, hsel, create_new_key]
      exact findKeyById_append_fresh st.keys _
        (fun j hj => Nat.ne_of_lt (hbound j hj))
    · rfl
    · simp only [get_or_create_active_key, hsel, create_new_key]

end UnifiedApi

/-- `MAX_DOCUMENT_SIZE_BYTES` default: 20 MiB. -/
def maxDocumentBytes : Nat := 20 * 1024 * 1024

/-- C1: for every byte sequence `d` with `0 < len d ≤ maxDocumentBytes`
(over any well-formed key pool), decrypting the document produced by the
unified codec's `encrypt_document` with its `decrypt_document` returns
exactly `d`. -/
theorem c1_roundtrip (P : CryptoPrims) (st : St) (d : List Nat) (did : Option String)
    (r : EncRand) (now : Int) (lf lf' : Bool)
    (hwf : ∀ k ∈ st.keys, KeyWF P k)
    (hnd : (st.keys.map (·.id)).Nodup)
    (hbound : ∀ k ∈ st.keys, k.id < st.nextId)
    (hpos : 0 < d.length) (hmax : d.length ≤ maxDocumentBytes) :
    (UnifiedApi.decrypt_document P (UnifiedApi.encrypt_document P st d did r now lf).2
      (UnifiedApi.encrypt_document P st d did r now lf).1.document_id lf').1 =
      Except.ok d := by
  obtain ⟨s, k', hpub, hfind, hpriv, _⟩ := UnifiedApi.get_or_create_spec P st r now hwf hnd hbound
  refine UnifiedApi.decrypt_document_of P _ _ _
    (UnifiedApi.mkPackage P (UnifiedApi.get_or_create_active_key P st r now).1 did r now d)
    k' d ?_ ?_ ?_
  · rw [UnifiedApi.encrypt_document_snd_s3, UnifiedApi.encrypt_document_fst_docId]
    exact s3Get_put _ _ _
  · rw [UnifiedApi.encrypt_document_snd_keys]
    exact hfind
  · simp only [UnifiedApi.mkPackage, hpriv, hpub, P.b64_dec_enc, P.kem_decaps_encaps]
    rw [aesCbc_dec_enc P _ _ _ r.iv_len (pad16_length_dvd d)]
    exact unpad16_pad16 d

/-! ## Transport-facing handlers, retrieve / store lambdas, rotation pass -/

/-- Parsed request body of the unified API (`content` holds the bytes of
the JSON string value; `None`/empty are both falsy in Python). -/
structure ReqBody where
  content : Option (List Nat)
  isBase64Encoded : Bool
  document_id : Option String
  output_format : Option String
deriving DecidableEq, Repr

/-- Response of the encrypt endpoint. -/
structure EncResp where
  statusCode : Nat
  document_id : Option String
  s3_location : Option String
  key_id : Option Nat
  error : Option String
deriving DecidableEq, Repr

/-- Response of the decrypt endpoint. -/
structure DecResp where
  statusCode : Nat
  document_content : Option (List Nat)
  is_base64_encoded : Option Bool
  error : Option String
deriving DecidableEq, Repr

namespace UnifiedApi

/-- The response-formatting tail of `handle_decrypt` (unified_api lines
352-371): plain text only when the caller asked for `text` and every byte
is ASCII, base64 otherwise. -/
def fmtResponse (P : CryptoPrims) (fmt : String) (d : List Nat) : List Nat × Bool :=
  if fmt = "text" ∧ d.all (fun c => c < 128) then (d, false)
  else (P.b64enc d, true)

/-- `handle_encrypt` (unified_api lines 310-344): reject missing/empty
content (falsy check), base64-decode if flagged, reject documents larger
than `MAX_DOCUMENT_SIZE_BYTES` (default 20 MiB) before calling
`encrypt_document`. -/
def handle_encrypt (P : CryptoPrims) (env : String → Option String) (body : ReqBody)
    (st : St) (r : EncRand) (now : Int) (logFail : Bool) : EncResp × St :=
  match body.content with
  | none =>
    ({ statusCode := 400, document_id := none, s3_location := none, key_id := none,
       error := some "Missing document content" }, st)
  | some c =>
    if c = [] then
      ({ statusCode := 400, document_id := none, s3_location := none, key_id := none,
         error := some "Missing document content" }, st)
    else
      let document_data := if body.isBase64Encoded then P.b64dec c else c
      let max_size := envNat env "MAX_DOCUMENT_SIZE_BYTES" maxDocumentBytes
      if document_data.length > max_size then
        ({ statusCode := 400, document_id := none, s3_location := none, key_id := none,
           error := some "Document too large" }, st)
      else
        let res := encrypt_document P st document_data body.document_id r now logFail
        ({ statusCode := 200, document_id := some res.1.document_id,
           s3_location := some res.1.s3_location, key_id := some res.1.key_id,
           error := none }, res.2)

/-- `handle_decrypt` (unified_api lines 346-376): decrypt, then format per
`output_format` (default `base64`); `ValueError` becomes a 404. -/
def handle_decrypt (P : CryptoPrims) (st : St) (document_id : String) (body : ReqBody)
    (logFail : Bool) : DecResp × St :=
  match decrypt_document P st document_id logFail with
  | (.ok d, st') =>
    let fr := fmtResponse P (body.output_format.getD "base64") d
    ({ statusCode := 200, document_content := some fr.1,
       is_base64_encoded := some fr.2, error := none }, st')
  | (.error e, st') =>
    ({ statusCode := 404, document_content := none, is_base64_encoded := none,
       error := some e }, st')

end UnifiedApi

namespace RetrieveLambda

/-- `get_key_by_id` (`src/lambdas/retrieve_lambda/app.py` lines 48-68):
look the row up by id and reject keys whose status is neither `active`
nor `rotation_queued`. -/
def get_key_by_id (st : St) (kid : Nat) : Except String KeyRecord :=
  match findKeyById st.keys kid with
  | none => .error "Key not found"
  | some k =>
    if k.status ≠ "active" ∧ k.status ≠ "rotation_queued" then
      .error "Key is not active"
    else
      .ok k

/-- `log_document_access` (retrieve_lambda lines 70-79): INSERT into
`access_logs` with no exception handling — a database failure propagates
to the caller. -/
def log_document_access (st : St) (logFail : Bool) (docId : String) :
    Except String St :=
  if logFail then .error "access_logs insert failed"
  else .ok { st with logs := st.logs ++ [⟨docId, "download", none⟩] }

/-- `decrypt_document` (retrieve_lambda lines 81-135): validate the
package fields (Python falsy checks), base64-decode, fetch the key, then
*simulate* ML-KEM decapsulation as `sha256(ciphertext + public_key)` —
the private key is loaded but never used (the source comments that a real
implementation would call the KEM's decapsulate).  CBC-decrypt, unpad,
and log the access (a log failure propagates). -/
def decrypt_document (P : CryptoPrims) (st : St) (pkg : Package) (logFail : Bool) :
    Except String (List Nat) × St :=
  if pkg.key_id = 0 then (.error "Missing key_id in encrypted package", st)
  else if pkg.ciphertext = [] then (.error "Missing ciphertext in encrypted package", st)
  else if pkg.iv = [] then (.error "Missing iv in encrypted package", st)
  else if pkg.encrypted_data = [] then
    (.error "Missing encrypted_data in encrypted package", st)
  else
    let ciphertext := P.b64dec pkg.ciphertext
    let iv := P.b64dec pkg.iv
    let encrypted_data := P.b64dec pkg.encrypted_data
    match get_key_by_id st pkg.key_id with
    | .error e => (.error e, st)
    | .ok key =>
      let _private_key := P.b64dec key.private_key
      let public_key := P.b64dec key.public_key
      let shared_secret := P.sha256 (ciphertext ++ public_key)
      let aes_key := P.sha256 shared_secret
      let padded := aesCbcDecrypt P aes_key iv encrypted_data
      match unpad16 padded with
      | none => (.error "Invalid padding", st)
      | some data =>
        match pkg.meta_document_id with
        | some did =>
          if did = "" then (.ok data, st)
          else
            match log_document_access st logFail did with
            | .error e => (.error e, st)
            | .ok st2 => (.ok data, st2)
        | none => (.ok data, st)

/-- The response-formatting tail of retrieve_lambda's `lambda_handler`
(lines 162-187). -/
def fmtResponse (P : CryptoPrims) (fmt : String) (d : List Nat) : List Nat × Bool :=
  if fmt = "base64" then (P.b64enc d, true)
  else if fmt = "text" ∧ d.all (fun c => c < 128) then (d, false)
  else (P.b64enc d, true)

end RetrieveLambda

namespace StoreLambda

/-- `encrypt_document` (`src/lambdas/store_lambda/app.py` lines 192-229)
on its `key=None` path: `get_active_key` (lines 55-83, line-for-line the
same query/update as unified_api's `get_or_create_active_key`), then the
same package assembly as unified_api; the handler, not this function,
stores and logs. -/
def encrypt_document (P : CryptoPrims) (st : St) (document_data : List Nat)
    (document_id : Option String) (r : EncRand) (now : Int) : Package × St :=
  let sel := UnifiedApi.get_or_create_active_key P st r now
  (UnifiedApi.mkPackage P sel.1 document_id r now document_data, sel.2)

end StoreLambda

namespace RotateKeys

/-- First UPDATE of `rotate_keys` (`src/lambdas/rotate_keys/app.py` lines
40-49) applied to one row: `active` keys older than `ROTATE_AGE_DAYS`
days or with `usage_count >= 1000` become `rotation_queued`.  The usage
threshold is the literal `1000` in the SQL. -/
def queue1 (rotateAgeDays : Nat) (now : Int) (k : KeyRecord) : KeyRecord :=
  if k.status = "active" ∧
      (k.created_at < now - (rotateAgeDays : Int) * 86400 ∨ 1000 ≤ k.usage_count) then
    { k with status := "rotation_queued" }
  else k

/-- Second UPDATE of `rotate_keys` (lines 58-66) applied to one row:
`rotation_queued` keys whose *original* `created_at` is older than
`DEACTIVATE_AFTER_DAYS` days become `expired`. -/
def expire1 (deactivateAfterDays : Nat) (now : Int) (k : KeyRecord) : KeyRecord :=
  if k.status = "rotation_queued" ∧
      k.created_at < now - (deactivateAfterDays : Int) * 86400 then
    { k with status := "expired" }
  else k

/-- `create_key` (rotate_keys lines 17-31): generate a fresh ML-KEM pair
and INSERT it with `status='active', usage_count=0` (no KMS columns);
`created_at` is assigned by the store at insert time (the schema file is
not in the sources; modelled from the spec's `createdAt: timestamp`). -/
def create_key (P : CryptoPrims) (st : St) (now : Int) : St :=
  let pp := P.kemGen st.seed
  { st with
    keys := st.keys ++
      [{ id := st.nextId, public_key := P.b64enc pp.1, private_key := P.b64enc pp.2,
         kms_key_id := none, kms_key_arn := none, status := "active",
         usage_count := 0, created_at := now }],
    nextId := st.nextId + 1, seed := st.seed + 1 }

/-- The backfill loop `for _ in range(MIN_ACTIVE_KEYS - active_count)`. -/
def backfill (P : CryptoPrims) : Nat → St → Int → St
  | 0, st, _ => st
  | n + 1, st, now => backfill P n (create_key P st now) now

/-- `SELECT COUNT(*) FROM encryption_keys WHERE status = 'active'`. -/
def countActive (keys : List KeyRecord) : Nat :=
  keys.countP (fun k => k.status == "active")

/-- `rotate_keys` (rotate_keys lines 34-66): queue old/overused active
keys, backfill the pool to `MIN_ACTIVE_KEYS`, then expire long-queued
keys.  `ROTATE_AGE_DAYS`, `MIN_ACTIVE_KEYS` and `DEACTIVATE_AFTER_DAYS`
come from the environment; the usage threshold does not. -/
def rotate_keys (P : CryptoPrims) (env : String → Option String) (now : Int)
    (st : St) : St :=
  let rotateAgeDays := envNat env "ROTATE_AGE_DAYS" 30
  let minActiveKeys := envNat env "MIN_ACTIVE_KEYS" 3
  let deactivateAfterDays := envNat env "DEACTIVATE_AFTER_DAYS" 60
  let st1 := { st with keys := st.keys.map (queue1 rotateAgeDays now) }
  let a := countActive st1.keys
  let st2 := if a < minActiveKeys then backfill P (minActiveKeys - a) st1 now else st1
  { st2 with keys := st2.keys.map (expire1 deactivateAfterDays now) }

end RotateKeys

/-- Point override of the environment, to state which variables a pass
does (not) consult. -/
def setEnv (env : String → Option String) (name v : String) :
    String → Option String :=
  fun s => if s = name then some v else env s

/-! ## A concrete instantiation of the primitives, for evaluating the code
at explicit inputs -/

/-- A small concrete model of the black-box primitives satisfying every
`CryptoPrims` contract: identity hash/base64, a key-dependent shift as
the block permutation, and a toy KEM whose shared secret is
`pub ++ [coins]`. -/
def toyPrims : CryptoPrims where
  sha256 := fun x => x
  b64enc := fun x => x
  b64dec := fun x => x
  aesEncBlock := fun k b => b.map (fun x => x + k.headD 0)
  aesDecBlock := fun k b => b.map (fun x => x - k.headD 0)
  kemGen := fun s => ([s], [s])
  kemEncaps := fun pub r => ([r], pub ++ [r])
  kemDecaps := fun priv ct => priv ++ ct
  b64_dec_enc := fun _ => rfl
  aes_dec_enc := by
    intro k b
    induction b with
    | nil => rfl
    | cons x xs ih => simp_all
  aesEncBlock_len := by intro k b; simp
  kem_decaps_encaps := fun _ _ => rfl

/-- Empty pool. -/
def st0 : St := { keys := [], nextId := 1, s3 := [], logs := [], seed := 5 }

/-- Concrete randomness: KEM coins 9, an all-zero IV, fixed uuid/KMS ids. -/
def r0 : EncRand :=
  { kemR := 9, ivB := List.replicate 16 0, iv_len := by simp, uuid := "u-1",
    kmsKeyId := "kms-1", kmsKeyArn := "arn-1" }

/-- One pool row whose key pair is `toyPrims.kemGen 7`. -/
def key7 : KeyRecord :=
  { id := 1, public_key := [7], private_key := [7], kms_key_id := none,
    kms_key_arn := none, status := "active", usage_count := 0, created_at := 0 }

/-- Pool holding exactly `key7`. -/
def stK : St := { keys := [key7], nextId := 2, s3 := [], logs := [], seed := 0 }

/-- Witness for the round trip at a concrete input (empty pool, document
`[1, 2, 3]`). -/
theorem c1_roundtrip_witness :
    (UnifiedApi.decrypt_document toyPrims
      (UnifiedApi.encrypt_document toyPrims st0 [1, 2, 3] none r0 0 false).2
      (UnifiedApi.encrypt_document toyPrims st0 [1, 2, 3] none r0 0 false).1.document_id
      false).1 = Except.ok [1, 2, 3] :=
  c1_roundtrip toyPrims st0 [1, 2, 3] none r0 0 false false
    (by intro k hk; simp [st0] at hk) (by simp [st0]) (by intro k hk; simp [st0] at hk)
    (by simp) (by norm_num [maxDocumentBytes])

/-- C10: in both decrypt responders, `is_base64_encoded` is `false`
exactly when the caller requested `text` output and every recovered byte
is ASCII (in which case the content is the plaintext itself, whose UTF-8
decoding these ASCII bytes are); in every other case the content is the
base64 encoding and the flag is `true`. -/
theorem c10_output_format_consistency :
    ∀ (P : CryptoPrims) (fmt : String) (d : List Nat),
      (UnifiedApi.fmtResponse P fmt d =
        if fmt = "text" ∧ ∀ b ∈ d, b < 128 then (d, false) else (P.b64enc d, true)) ∧
      (RetrieveLambda.fmtResponse P fmt d =
        if fmt = "text" ∧ ∀ b ∈ d, b < 128 then (d, false) else (P.b64enc d, true)) := by
  intro P fmt d
  have hiff : (fmt = "text" ∧ (d.all fun c => decide (c < 128)) = true) ↔
      (fmt = "text" ∧ ∀ b ∈ d, b < 128) := by
    simp [List.all_eq_true]
  constructor
  · rw [UnifiedApi.fmtResponse]
    exact if_congr hiff rfl rfl
  · rw [RetrieveLambda.fmtResponse]
    by_cases hb : fmt = "base64"
    · rw [if_pos hb, if_neg]
      rintro ⟨ht, -⟩
      rw [hb] at ht
      exact absurd ht (by decide)
    · rw [if_neg hb]
      exact if_congr hiff rfl rfl

/-- C6: a document strictly larger than the configured
`MAX_DOCUMENT_SIZE_BYTES` (default `maxDocumentBytes` = 20 MiB) makes
`handle_encrypt` return status 400 with the store completely untouched:
no key selection, no usage increment, no key creation, no S3 put, no log
row. -/
theorem c6_oversized_rejected (P : CryptoPrims) (env : String → Option String)
    (body : ReqBody) (st : St) (r : EncRand) (now : Int) (lf : Bool) (c : List Nat)
    (hc : body.content = some c) (hne : c ≠ [])
    (hlen : envNat env "MAX_DOCUMENT_SIZE_BYTES" maxDocumentBytes <
      (if body.isBase64Encoded then P.b64dec c else c).length) :
    UnifiedApi.handle_encrypt P env body st r now lf =
      ({ statusCode := 400, document_id := none, s3_location := none, key_id := none,
         error := some "Document too large" }, st) := by
  simp only [UnifiedApi.handle_encrypt, hc]
  rw [if_neg hne, if_pos hlen]

/-- A request carrying a document one byte over the default limit. -/
def bigBody : ReqBody :=
  { content := some (List.replicate (maxDocumentBytes + 1) 0), isBase64Encoded := false,
    document_id := none, output_format := none }

/-- Witness for the oversized rejection at a concrete input. -/
theorem c6_oversized_rejected_witness :
    UnifiedApi.handle_encrypt toyPrims (fun _ => none) bigBody st0 r0 0 false =
      ({ statusCode := 400, document_id := none, s3_location := none, key_id := none,
         error := some "Document too large" }, st0) :=
  c6_oversized_rejected toyPrims (fun _ => none) bigBody st0 r0 0 false
    (List.replicate (maxDocumentBytes + 1) 0) rfl
    (by
      intro h
      have hl := congrArg List.length h
      simp at hl)
    (by
      rw [show (if bigBody.isBase64Encoded then
          toyPrims.b64dec (List.replicate (maxDocumentBytes + 1) 0)
        else List.replicate (maxDocumentBytes + 1) 0) =
          List.replicate (maxDocumentBytes + 1) 0 from rfl, List.length_replicate]
      exact Nat.lt_succ_self maxDocumentBytes)

/-! ## C4: key selection -/

/-- Active row inserted first: equal usage, *later* `created_at`. -/
def key4a : KeyRecord :=
  { id := 1, public_key := [2], private_key := [2], kms_key_id := none,
    kms_key_arn := none, status := "active", usage_count := 0, created_at := 100 }

/-- Active row inserted second: equal usage, *earlier* `created_at`. -/
def key4b : KeyRecord :=
  { id := 2, public_key := [3], private_key := [3], kms_key_id := none,
    kms_key_arn := none, status := "active", usage_count := 0, created_at := 50 }

/-- Pool with a usage-count tie whose earlier-created row is `key4b`. -/
def st4 : St := { keys := [key4a, key4b], nextId := 3, s3 := [], logs := [], seed := 0 }

/-- Counterexample to C4 as stated: both rows are `active` with usage 0
and `key4b` (id 2) has the strictly earlier `created_at` (50 < 100), so
the claimed tie-break would select id 2 — but the selection returns id 1:
the SQL orders by `usage_count` alone and has no `created_at` tie-break. -/
theorem c4_tie_break_cex :
    (UnifiedApi.get_or_create_active_key toyPrims st4 r0 0).1.id = 1 ∧
    key4b ∈ st4.keys ∧ key4b.status = "active" ∧
    key4b.usage_count = key4a.usage_count ∧
    key4b.created_at < key4a.created_at ∧ key4b.id = 2 := by
  refine ⟨by decide, by decide, rfl, rfl, by decide, rfl⟩

/-- C4 amended: with a non-empty active pool, selection returns an
`active` row attaining the minimal usage count among active rows (ties
broken by row order, not by `created_at`), and the store afterwards holds
exactly the same rows with the selected id's usage count incremented by
one. -/
theorem c4_least_used_selection (P : CryptoPrims) (st : St) (r : EncRand) (now : Int)
    (h : ∃ k ∈ st.keys, k.status = "active") :
    (UnifiedApi.get_or_create_active_key P st r now).1 ∈ st.keys ∧
    (UnifiedApi.get_or_create_active_key P st r now).1.status = "active" ∧
    (∀ j ∈ st.keys, j.status = "active" →
      (UnifiedApi.get_or_create_active_key P st r now).1.usage_count ≤ j.usage_count) ∧
    (UnifiedApi.get_or_create_active_key P st r now).2.keys =
      st.keys.map (fun j =>
        if j.id = (UnifiedApi.get_or_create_active_key P st r now).1.id then
          { j with usage_count := j.usage_count + 1 }
        else j) := by
  obtain ⟨k0, hk0, ha0⟩ := h
  obtain ⟨j, hsel⟩ := selectActive_isSome st.keys k0 hk0 ha0
  obtain ⟨hm, hact, hmin⟩ := selectActive_spec st.keys j hsel
  simp only [UnifiedApi.get_or_create_active_key, hsel]
  exact ⟨hm, hact, hmin, rfl⟩

/-- Witness for the amended C4 at the concrete pool `st4`. -/
theorem c4_least_used_selection_witness :
    (UnifiedApi.get_or_create_active_key toyPrims st4 r0 0).1 ∈ st4.keys ∧
    (UnifiedApi.get_or_create_active_key toyPrims st4 r0 0).1.status = "active" :=
  ⟨(c4_least_used_selection toyPrims st4 r0 0 ⟨key4a, by decide, rfl⟩).1,
   (c4_least_used_selection toyPrims st4 r0 0 ⟨key4a, by decide, rfl⟩).2.1⟩

/-- Decidable equality on `Except`, for evaluating results at concrete
inputs. -/
instance {e a : Type} [DecidableEq e] [DecidableEq a] : DecidableEq (Except e a) := fun x y =>
  match x, y with
  | .ok u, .ok v =>
    if h : u = v then .isTrue (by rw [h]) else .isFalse (fun hc => h (Except.ok.inj hc))
  | .error u, .error v =>
    if h : u = v then .isTrue (by rw [h]) else .isFalse (fun hc => h (Except.error.inj hc))
  | .ok _, .error _ => .isFalse (fun hc => Except.noConfusion hc)
  | .error _, .ok _ => .isFalse (fun hc => Except.noConfusion hc)

/-! ## C3: decrypting with an expired key -/

/-- C3 failing input evaluated: store a document under `stK`'s only key,
then mark every pool row `expired`; the unified codec's
`decrypt_document` still returns the plaintext — it reads the key's
`status` column but never checks it, so no `KeyNotUsableError` exists on
this path. -/
theorem c3_expired_key_decrypts :
    (UnifiedApi.decrypt_document toyPrims
      { (UnifiedApi.encrypt_document toyPrims stK [1, 2, 3] (some "doc1") r0 0 false).2 with
        keys := (UnifiedApi.encrypt_document toyPrims stK [1, 2, 3]
          (some "doc1") r0 0 false).2.keys.map
            (fun k => { k with status := "expired" }) }
      "doc1" false).1 = Except.ok [1, 2, 3] := by decide

/-! ## C2: the retrieve lambda's simulated decapsulation -/

/-- C2 failing input evaluated: a package honestly produced by
store_lambda's `encrypt_document` under `stK`'s pool key does not decrypt
back to the document through retrieve_lambda's `decrypt_document`, because
the latter computes the shared secret as `sha256(ciphertext + public_key)`
instead of KEM-decapsulating with the private key. -/
theorem c2_simulated_decapsulation_diverges :
    (RetrieveLambda.decrypt_document toyPrims
      (StoreLambda.encrypt_document toyPrims stK [1, 2, 3] (some "doc1") r0 0).2
      (StoreLambda.encrypt_document toyPrims stK [1, 2, 3] (some "doc1") r0 0).1
      false).1 ≠ Except.ok [1, 2, 3] := by decide

/-! ## C5: audit logging versus the critical path -/

/-- A package decryptable through retrieve_lambda's (simulated) scheme
under `stK`'s key: its AES key is `sha256(sha256(ciphertext ++
public_key))` and it carries a `document_id`, so the access-log insert
runs. -/
def pkgGood : Package :=
  { key_id := 1, ciphertext := [9], iv := List.replicate 16 0,
    encrypted_data := aesCbcEncrypt toyPrims [9, 7] (List.replicate 16 0) (pad16 [1, 2, 3]),
    meta_algorithm := "ML-KEM-768-AES256-CBC", meta_created_at := 0,
    meta_kms_key_id := none, meta_document_id := some "doc1" }

/-- Counterexample to C5 as stated: retrieve_lambda's `decrypt_document`
succeeds on `pkgGood` when the access-log insert works, but the very same
decryption fails outright when the insert raises — the log write sits
unguarded on the critical path (`log_document_access` has no exception
handler). -/
theorem c5_retrieve_log_failure_cex :
    (RetrieveLambda.decrypt_document toyPrims stK pkgGood false).1 = Except.ok [1, 2, 3] ∧
    (RetrieveLambda.decrypt_document toyPrims stK pkgGood true).1 =
      Except.error "access_logs insert failed" := by
  constructor <;> decide

/-- C5 amended: in the unified API a failure of the `access_logs` insert
never changes the result of `encrypt_document` or `decrypt_document`
(the insert is wrapped in a broad exception handler); in retrieve_lambda,
however, any decryption that would succeed on a package carrying a
non-empty `document_id` fails when the access-log insert raises. -/
theorem c5_log_best_effort :
    (∀ (P : CryptoPrims) (st : St) (d : List Nat) (did : Option String) (r : EncRand)
        (now : Int) (lf : Bool),
      (UnifiedApi.encrypt_document P st d did r now lf).1 =
        (UnifiedApi.encrypt_document P st d did r now false).1) ∧
    (∀ (P : CryptoPrims) (st : St) (docId : String) (lf : Bool),
      (UnifiedApi.decrypt_document P st docId lf).1 =
        (UnifiedApi.decrypt_document P st docId false).1) ∧
    (∀ (P : CryptoPrims) (st : St) (pkg : Package) (did : String) (d : List Nat),
      pkg.meta_document_id = some did → did ≠ "" →
      (RetrieveLambda.decrypt_document P st pkg false).1 = Except.ok d →
      (RetrieveLambda.decrypt_document P st pkg true).1 =
        Except.error "access_logs insert failed") := by
  refine ⟨fun P st d did r now lf => rfl, ?_, ?_⟩
  · intro P st docId lf
    simp only [UnifiedApi.decrypt_document]
    split
    · rfl
    · split
      · rfl
      · split
        · rfl
        · rfl
  · intro P st pkg did d hdid hne hok
    unfold RetrieveLambda.decrypt_document at hok ⊢
    by_cases h1 : pkg.key_id = 0
    · rw [if_pos h1] at hok
      exact absurd hok (by simp)
    · rw [if_neg h1] at hok ⊢
      by_cases h2 : pkg.ciphertext = []
      · rw [if_pos h2] at hok
        exact absurd hok (by simp)
      · rw [if_neg h2] at hok ⊢
        by_cases h3 : pkg.iv = []
        · rw [if_pos h3] at hok
          exact absurd hok (by simp)
        · rw [if_neg h3] at hok ⊢
          by_cases h4 : pkg.encrypted_data = []
          · rw [if_pos h4] at hok
            exact absurd hok (by simp)
          · rw [if_neg h4] at hok ⊢
            cases hk : RetrieveLambda.get_key_by_id st pkg.key_id with
            | error e =>
              simp only [hk] at hok
              exact absurd hok (by simp)
            | ok key =>
              simp only [hk] at hok ⊢
              cases hu : unpad16 (aesCbcDecrypt P
                  (P.sha256 (P.sha256 (P.b64dec pkg.ciphertext ++ P.b64dec key.public_key)))
                  (P.b64dec pkg.iv) (P.b64dec pkg.encrypted_data)) with
              | none =>
                simp only [hu] at hok
                exact absurd hok (by simp)
              | some data0 =>
                simp only [hu, hdid] at hok ⊢
                rw [if_neg hne] at hok ⊢
                simp [RetrieveLambda.log_document_access]

/-- Witness for the retrieve part of the amended C5 at the concrete
input `pkgGood`. -/
theorem c5_log_best_effort_witness :
    (RetrieveLambda.decrypt_document toyPrims stK pkgGood true).1 =
      Except.error "access_logs insert failed" :=
  c5_log_best_effort.2.2 toyPrims stK pkgGood "doc1" [1, 2, 3] rfl (by decide) (by decide)

/-! ## Rotation-pass lemmas -/

namespace RotateKeys

theorem queue1_expire1_queue1 (R D : Nat) (now : Int) (k : KeyRecord) :
    queue1 R now (expire1 D now (queue1 R now k)) = expire1 D now (queue1 R now k) := by
  simp only [queue1, expire1]
  split_ifs <;> simp_all

theorem expire1_expire1 (D : Nat) (now : Int) (k : KeyRecord) :
    expire1 D now (expire1 D now k) = expire1 D now k := by
  simp only [expire1]
  split_ifs <;> simp_all

theorem queue1_fresh (R : Nat) (now : Int) (k : KeyRecord)
    (hu : k.usage_count = 0) (hc : k.created_at = now) : queue1 R now k = k := by
  unfold queue1
  rw [if_neg]
  rintro ⟨-, hor⟩
  have hnn : (0 : Int) ≤ (R : Int) * 86400 := by positivity
  rcases hor with hlt | hge
  · rw [hc] at hlt
    omega
  · omega

theorem expire1_not_queued (D : Nat) (now : Int) (k : KeyRecord)
    (h : k.status ≠ "rotation_queued") : expire1 D now k = k := by
  unfold expire1
  exact if_neg (fun hc => h hc.1)

theorem queue1_not_active (R : Nat) (now : Int) (k : KeyRecord)
    (h : k.status ≠ "active") : queue1 R now k = k := by
  unfold queue1
  exact if_neg (fun hc => h hc.1)

theorem expire1_status_beq (D : Nat) (now : Int) (k : KeyRecord) :
    ((expire1 D now k).status == "active") = (k.status == "active") := by
  unfold expire1
  split
  · rename_i h
    rw [h.1]
    rfl
  · rfl

theorem countActive_map_expire1 (D : Nat) (now : Int) (l : List KeyRecord) :
    countActive (l.map (expire1 D now)) = countActive l := by
  unfold countActive
  induction l with
  | nil => rfl
  | cons x xs ih =>
    simp only [List.map_cons, List.countP_cons, ih, expire1_status_beq]

theorem backfill_spec (P : CryptoPrims) (n : Nat) (st : St) (now : Int) :
    ∃ l, (backfill P n st now).keys = st.keys ++ l ∧ l.length = n ∧
      ∀ k ∈ l, k.status = "active" ∧ k.usage_count = 0 ∧ k.created_at = now := by
  induction n generalizing st with
  | zero => exact ⟨[], by simp [backfill], rfl, by simp⟩
  | succ m ih =>
    obtain ⟨l, hk, hlen, hprop⟩ := ih (create_key P st now)
    refine ⟨{ id := st.nextId, public_key := P.b64enc (P.kemGen st.seed).1,
              private_key := P.b64enc (P.kemGen st.seed).2, kms_key_id := none,
              kms_key_arn := none, status := "active", usage_count := 0,
              created_at := now } :: l, ?_, by simp [hlen], ?_⟩
    · show (backfill P m (create_key P st now) now).keys = _
      rw [hk]
      show (create_key P st now).keys ++ l = st.keys ++ _
      simp [create_key]
    · intro k hkk
      rcases List.mem_cons.mp hkk with rfl | hkk
      · exact ⟨rfl, rfl, rfl⟩
      · exact hprop k hkk

theorem countP_all_active (l : List KeyRecord) (h : ∀ k ∈ l, k.status = "active") :
    l.countP (fun k => k.status == "active") = l.length := by
  induction l with
  | nil => rfl
  | cons x xs ih =>
    have hx : x.status = "active" := h x (List.mem_cons_self x xs)
    simp [List.countP_cons, hx, ih (fun a ha => h a (List.mem_cons_of_mem _ ha))]

theorem countActive_backfill (P : CryptoPrims) (n : Nat) (st : St) (now : Int) :
    countActive (backfill P n st now).keys = countActive st.keys + n := by
  obtain ⟨l, hk, hlen, hprop⟩ := backfill_spec P n st now
  rw [hk]
  unfold countActive
  rw [List.countP_append, countP_all_active l (fun a ha => (hprop a ha).1), hlen]

theorem rotate_keys_split (P : CryptoPrims) (env : String → Option String)
    (now : Int) (st : St) :
    ∃ rest, (rotate_keys P env now st).keys =
      st.keys.map (fun k => expire1 (envNat env "DEACTIVATE_AFTER_DAYS" 60) now
        (queue1 (envNat env "ROTATE_AGE_DAYS" 30) now k)) ++ rest := by
  simp only [rotate_keys]
  by_cases hA : countActive (st.keys.map (queue1 (envNat env "ROTATE_AGE_DAYS" 30) now)) <
      envNat env "MIN_ACTIVE_KEYS" 3
  · rw [if_pos hA]
    obtain ⟨l, hk, -, -⟩ := backfill_spec P
      (envNat env "MIN_ACTIVE_KEYS" 3 -
        countActive (st.keys.map (queue1 (envNat env "ROTATE_AGE_DAYS" 30) now)))
      { st with keys := st.keys.map (queue1 (envNat env "ROTATE_AGE_DAYS" 30) now) } now
    refine ⟨l.map (expire1 (envNat env "DEACTIVATE_AFTER_DAYS" 60) now), ?_⟩
    rw [hk]
    rw [List.map_append, List.map_map]
    rfl
  · rw [if_neg hA]
    refine ⟨[], ?_⟩
    rw [List.append_nil]
    show (st.keys.map (queue1 (envNat env "ROTATE_AGE_DAYS" 30) now)).map
        (expire1 (envNat env "DEACTIVATE_AFTER_DAYS" 60) now) = _
    rw [List.map_map]
    rfl

theorem rotate_keys_stable (P : CryptoPrims) (env : String → Option String)
    (now : Int) (st : St) :
    ∀ j ∈ (rotate_keys P env now st).keys,
      queue1 (envNat env "ROTATE_AGE_DAYS" 30) now j = j ∧
      expire1 (envNat env "DEACTIVATE_AFTER_DAYS" 60) now j = j := by
  intro j hj
  simp only [rotate_keys] at hj
  rcases List.mem_map.mp hj with ⟨x, hx, rfl⟩
  have hx2 : x ∈ st.keys.map (queue1 (envNat env "ROTATE_AGE_DAYS" 30) now) ∨
      (x.status = "active" ∧ x.usage_count = 0 ∧ x.created_at = now) := by
    by_cases hA : countActive (st.keys.map (queue1 (envNat env "ROTATE_AGE_DAYS" 30) now)) <
        envNat env "MIN_ACTIVE_KEYS" 3
    · rw [if_pos hA] at hx
      obtain ⟨l, hk, -, hprop⟩ := backfill_spec P
        (envNat env "MIN_ACTIVE_KEYS" 3 -
          countActive (st.keys.map (queue1 (envNat env "ROTATE_AGE_DAYS" 30) now)))
        { st with keys := st.keys.map (queue1 (envNat env "ROTATE_AGE_DAYS" 30) now) } now
      rw [hk] at hx
      rcases List.mem_append.mp hx with h | h
      · left; exact h
      · right; exact hprop x h
    · rw [if_neg hA] at hx
      left; exact hx
  rcases hx2 with h | ⟨ha, hu, hc⟩
  · rcases List.mem_map.mp h with ⟨k0, hk0, rfl⟩
    exact ⟨queue1_expire1_queue1 _ _ now k0,
      expire1_expire1 _ now (queue1 (envNat env "ROTATE_AGE_DAYS" 30) now k0)⟩
  · have hx1 : expire1 (envNat env "DEACTIVATE_AFTER_DAYS" 60) now x = x :=
      expire1_not_queued _ now x (by rw [ha]; decide)
    rw [hx1]
    exact ⟨queue1_fresh _ now x hu hc, hx1⟩

theorem countActive_rotate_keys (P : CryptoPrims) (env : String → Option String)
    (now : Int) (st : St) :
    envNat env "MIN_ACTIVE_KEYS" 3 ≤ countActive (rotate_keys P env now st).keys := by
  have hred : countActive ({ st with
      keys := st.keys.map (queue1 (envNat env "ROTATE_AGE_DAYS" 30) now) } : St).keys =
      countActive (st.keys.map (queue1 (envNat env "ROTATE_AGE_DAYS" 30) now)) := rfl
  simp only [rotate_keys]
  rw [countActive_map_expire1]
  by_cases hA : countActive (st.keys.map (queue1 (envNat env "ROTATE_AGE_DAYS" 30) now)) <
      envNat env "MIN_ACTIVE_KEYS" 3
  · rw [if_pos hA, countActive_backfill, hred]
    omega
  · rw [if_neg hA, hred]
    omega

theorem rotate_fixed (P : CryptoPrims) (env : String → Option String) (now : Int) (X : St)
    (hstable : ∀ j ∈ X.keys,
      queue1 (envNat env "ROTATE_AGE_DAYS" 30) now j = j ∧
      expire1 (envNat env "DEACTIVATE_AFTER_DAYS" 60) now j = j)
    (hcount : envNat env "MIN_ACTIVE_KEYS" 3 ≤ countActive X.keys) :
    rotate_keys P env now X = X := by
  have hq : X.keys.map (queue1 (envNat env "ROTATE_AGE_DAYS" 30) now) = X.keys := by
    have h1 := List.map_congr_left (fun a ha => (hstable a ha).1)
    simpa using h1
  have he : X.keys.map (expire1 (envNat env "DEACTIVATE_AFTER_DAYS" 60) now) = X.keys := by
    have h1 := List.map_congr_left (fun a ha => (hstable a ha).2)
    simpa using h1
  simp only [rotate_keys]
  rw [hq]
  rw [if_neg (show ¬countActive ({ X with keys := X.keys } : St).keys <
      envNat env "MIN_ACTIVE_KEYS" 3 from Nat.not_lt.mpr hcount)]
  rw [show ({ X with keys := X.keys } : St).keys = X.keys from rfl, he]

end RotateKeys

/-- C7: running the rotation pass twice at the same instant (no elapsed
time, no intervening traffic) is a no-op the second time: no additional
status transitions and no additional key creations, for every starting
pool state and every environment. -/
theorem c7_rotation_idempotent (P : CryptoPrims) (env : String → Option String)
    (now : Int) (st : St) :
    RotateKeys.rotate_keys P env now (RotateKeys.rotate_keys P env now st) =
      RotateKeys.rotate_keys P env now st :=
  RotateKeys.rotate_fixed P env now _
    (RotateKeys.rotate_keys_stable P env now st)
    (RotateKeys.countActive_rotate_keys P env now st)

/-! ## C8: rotation transitions after one pass -/

/-- An `active` pool row created at time 0. -/
def key8 : KeyRecord :=
  { id := 1, public_key := [7], private_key := [7], kms_key_id := none,
    kms_key_arn := none, status := "active", usage_count := 0, created_at := 0 }

/-- Pool holding exactly `key8`. -/
def st8 : St := { keys := [key8], nextId := 2, s3 := [], logs := [], seed := 0 }

/-- Counterexample to C8 as stated: at `now = 6000000` s, `key8` (age
~69.4 days) is older than `rotateAgeDays` (30 d), so the claim says one
pass leaves it in `rotation_queued` — but the same pass's expiry UPDATE
immediately matches the freshly queued row (it is also older than
`deactivateAfterDays` = 60 d measured from `created_at`), so the key ends
the pass `expired`, not `rotation_queued`. -/
theorem c8_same_pass_expiry_cex :
    (findKeyById (RotateKeys.rotate_keys toyPrims (fun _ => none) 6000000 st8).keys 1).map
        (fun k => k.status) = some "expired" ∧
      ("expired" : String) ≠ "rotation_queued" := by
  constructor <;> decide

/-- C8 amended: after one pass, an `active` key older than
`rotateAgeDays` ends in `rotation_queued` — unless its `created_at` is
also older than `deactivateAfterDays`, in which case the same pass
expires it; and a `rotation_queued` key older than `deactivateAfterDays`
(measured from the original `created_at`) ends `expired`. -/
theorem c8_rotation_transitions (P : CryptoPrims) (env : String → Option String)
    (now : Int) (st : St) (k : KeyRecord) (hk : k ∈ st.keys) :
    (k.status = "active" →
      k.created_at < now - (envNat env "ROTATE_AGE_DAYS" 30 : Int) * 86400 →
      (if k.created_at < now - (envNat env "DEACTIVATE_AFTER_DAYS" 60 : Int) * 86400 then
        ({ k with status := "expired" } : KeyRecord)
      else { k with status := "rotation_queued" }) ∈
        (RotateKeys.rotate_keys P env now st).keys) ∧
    (k.status = "rotation_queued" →
      k.created_at < now - (envNat env "DEACTIVATE_AFTER_DAYS" 60 : Int) * 86400 →
      ({ k with status := "expired" } : KeyRecord) ∈
        (RotateKeys.rotate_keys P env now st).keys) := by
  obtain ⟨rest, hsplit⟩ := RotateKeys.rotate_keys_split P env now st
  constructor
  · intro ha hold
    rw [hsplit]
    refine List.mem_append_left _ ?_
    have hq1 : RotateKeys.queue1 (envNat env "ROTATE_AGE_DAYS" 30) now k =
        { k with status := "rotation_queued" } := by
      unfold RotateKeys.queue1
      rw [if_pos ⟨ha, Or.inl hold⟩]
    have he1 : RotateKeys.expire1 (envNat env "DEACTIVATE_AFTER_DAYS" 60) now
        ({ k with status := "rotation_queued" } : KeyRecord) =
        (if k.created_at < now - (envNat env "DEACTIVATE_AFTER_DAYS" 60 : Int) * 86400 then
          ({ k with status := "expired" } : KeyRecord)
        else { k with status := "rotation_queued" }) := by
      unfold RotateKeys.expire1
      by_cases hd : k.created_at < now - (envNat env "DEACTIVATE_AFTER_DAYS" 60 : Int) * 86400
      · rw [if_pos ⟨rfl, hd⟩, if_pos hd]
      · rw [if_neg (fun hc => hd hc.2), if_neg hd]
    rw [show (if k.created_at < now - (envNat env "DEACTIVATE_AFTER_DAYS" 60 : Int) * 86400 then
        ({ k with status := "expired" } : KeyRecord)
      else { k with status := "rotation_queued" }) =
        RotateKeys.expire1 (envNat env "DEACTIVATE_AFTER_DAYS" 60) now
          (RotateKeys.queue1 (envNat env "ROTATE_AGE_DAYS" 30) now k) from by rw [hq1, he1]]
    exact List.mem_map_of_mem _ hk
  · intro hq hold
    rw [hsplit]
    refine List.mem_append_left _ ?_
    have hq1 : RotateKeys.queue1 (envNat env "ROTATE_AGE_DAYS" 30) now k = k :=
      RotateKeys.queue1_not_active _ now k (by rw [hq]; decide)
    have he1 : RotateKeys.expire1 (envNat env "DEACTIVATE_AFTER_DAYS" 60) now k =
        { k with status := "expired" } := by
      unfold RotateKeys.expire1
      rw [if_pos ⟨hq, hold⟩]
    rw [show ({ k with status := "expired" } : KeyRecord) =
        RotateKeys.expire1 (envNat env "DEACTIVATE_AFTER_DAYS" 60) now
          (RotateKeys.queue1 (envNat env "ROTATE_AGE_DAYS" 30) now k) from by rw [hq1, he1]]
    exact List.mem_map_of_mem _ hk

/-- Witness for the amended C8 at `now = 3000000` s (`key8` is ~34.7 days
old: past the 30-day rotation age, not past the 60-day expiry age), so one
pass queues it. -/
theorem c8_rotation_transitions_witness :
    ({ key8 with status := "rotation_queued" } : KeyRecord) ∈
      (RotateKeys.rotate_keys toyPrims (fun _ => none) 3000000 st8).keys := by
  have h := (c8_rotation_transitions toyPrims (fun _ => none) 3000000 st8 key8
    (by decide)).1 rfl (by decide)
  rw [if_neg (by decide)] at h
  exact h

/-! ## C9: the usage trigger and its (non-)configurability -/

theorem envNat_setEnv_ne (env : String → Option String) (name v nm : String) (d : Nat)
    (h : nm ≠ name) : envNat (setEnv env name v) nm d = envNat env nm d := by
  unfold envNat setEnv
  rw [if_neg h]

/-- An `active` pool row with usage count 10, created at `now`. -/
def key9 : KeyRecord :=
  { id := 1, public_key := [7], private_key := [7], kms_key_id := none,
    kms_key_arn := none, status := "active", usage_count := 10, created_at := 0 }

/-- Pool holding exactly `key9`. -/
def st9 : St := { keys := [key9], nextId := 2, s3 := [], logs := [], seed := 0 }

/-- Environment that sets `USAGE_THRESHOLD=5`. -/
def env9 : String → Option String := setEnv (fun _ => none) "USAGE_THRESHOLD" "5"

/-- Counterexample to C9 as stated: with `USAGE_THRESHOLD` configured to
5 and a fresh `active` key of usage count 10 ≥ 5, the claim says the pass
queues the key — but it stays `active`: the pass compares against the
hard-coded literal 1000 and reads no usage-threshold configuration at
all. -/
theorem c9_threshold_not_configurable_cex :
    (findKeyById (RotateKeys.rotate_keys toyPrims env9 0 st9).keys 1).map
        (fun k => k.status) = some "active" ∧
      envNat env9 "USAGE_THRESHOLD" 1000 = 5 ∧ 5 ≤ key9.usage_count := by
  refine ⟨by decide, by decide, by decide⟩

/-- C9 amended: during a rotation pass every `active` key with
`usageCount ≥ 1000` — the hard-coded SQL literal, not a configured value —
transitions to `rotation_queued` (ending `expired` instead only if also
past the expiry age); and the pass is entirely insensitive to a
`USAGE_THRESHOLD` environment variable. -/
theorem c9_usage_trigger (P : CryptoPrims) (env : String → Option String)
    (now : Int) (st : St) (k : KeyRecord) :
    (k ∈ st.keys → k.status = "active" → 1000 ≤ k.usage_count →
      ¬(k.created_at < now - (envNat env "DEACTIVATE_AFTER_DAYS" 60 : Int) * 86400) →
      ({ k with status := "rotation_queued" } : KeyRecord) ∈
        (RotateKeys.rotate_keys P env now st).keys) ∧
    (∀ v, RotateKeys.rotate_keys P (setEnv env "USAGE_THRESHOLD" v) now st =
      RotateKeys.rotate_keys P env now st) := by
  constructor
  · intro hk ha hu hd
    obtain ⟨rest, hsplit⟩ := RotateKeys.rotate_keys_split P env now st
    rw [hsplit]
    refine List.mem_append_left _ ?_
    have hq1 : RotateKeys.queue1 (envNat env "ROTATE_AGE_DAYS" 30) now k =
        { k with status := "rotation_queued" } := by
      unfold RotateKeys.queue1
      rw [if_pos ⟨ha, Or.inr hu⟩]
    have he1 : RotateKeys.expire1 (envNat env "DEACTIVATE_AFTER_DAYS" 60) now
        ({ k with status := "rotation_queued" } : KeyRecord) =
        { k with status := "rotation_queued" } := by
      unfold RotateKeys.expire1
      rw [if_neg (fun hc => hd hc.2)]
    rw [show ({ k with status := "rotation_queued" } : KeyRecord) =
        RotateKeys.expire1 (envNat env "DEACTIVATE_AFTER_DAYS" 60) now
          (RotateKeys.queue1 (envNat env "ROTATE_AGE_DAYS" 30) now k) from by rw [hq1, he1]]
    exact List.mem_map_of_mem _ hk
  · intro v
    unfold RotateKeys.rotate_keys
    rw [envNat_setEnv_ne env "USAGE_THRESHOLD" v "ROTATE_AGE_DAYS" 30 (by decide),
      envNat_setEnv_ne env "USAGE_THRESHOLD" v "MIN_ACTIVE_KEYS" 3 (by decide),
      envNat_setEnv_ne env "USAGE_THRESHOLD" v "DEACTIVATE_AFTER_DAYS" 60 (by decide)]

/-- An `active` pool row that hit the hard-coded usage threshold. -/
def key9u : KeyRecord :=
  { id := 1, public_key := [7], private_key := [7], kms_key_id := none,
    kms_key_arn := none, status := "active", usage_count := 1000, created_at := 0 }

/-- Pool holding exactly `key9u`. -/
def st9u : St := { keys := [key9u], nextId := 2, s3 := [], logs := [], seed := 0 }

/-- Witness for the amended C9: a fresh active key with usage count 1000
is queued by one pass. -/
theorem c9_usage_trigger_witness :
    ({ key9u with status := "rotation_queued" } : KeyRecord) ∈
      (RotateKeys.rotate_keys toyPrims (fun _ => none) 0 st9u).keys :=
  (c9_usage_trigger toyPrims (fun _ => none) 0 st9u key9u).1
    (by decide) rfl (by decide) (by decide)
